import Mathlib

/-!
# Verification of the LineageOS updates bot core

A shallow embedding of the update-observer core of `lineageos_updates_bot`
(`utils/observer.py` and `utils/bot.py`), together with proofs about its
polling cycle, post ledger, status dump and sub-command dispatcher.

Modelling conventions:
* timestamps (`datetime` values) are integers ordered by `≤`;
* the Build Source (`AsyncV2Api.get_oems`, `AsyncV2Api.get_device_builds`)
  and the Notifier (`Poster.post`) are parameters of the cycle function;
  `none` models a raised exception, `some` a returned value;
* the Python `dict` `last_device_post` is an association list with
  Python 3.7 dict semantics (update in place, new keys appended);
* one iteration of the `while True` body of `Observer.observe` (after the
  `event.wait()` gate) is the function `observeCycle`; its `slept` field
  records whether the `await sleep(10 * 60)` statement at the bottom of the
  loop body was reached in that iteration (a `continue` skips it).
-/

set_option autoImplicit false

namespace LineageBot

/-- A build record (`liblineage.updater.v2.build.Build`): the observer only
inspects its `datetime`; `payload` stands for the remaining fields, which are
passed through to the poster untouched. -/
structure Build where
  datetime : Int
  payload : Nat
deriving DecidableEq, Repr

/-- A device entry of an OEM, as returned by `get_oems` (only the `model`
field is used by the observer). -/
structure DeviceEntry where
  model : String
deriving DecidableEq, Repr

/-- An OEM record, as returned by `get_oems` (only `devices` is used). -/
structure Oem where
  devices : List DeviceEntry
deriving DecidableEq, Repr

/-- The post ledger `Observer.last_device_post : Dict[str, datetime]`. -/
abbrev Ledger := List (String × Int)

/-- `d in last_device_post` / `last_device_post[d]`: first-occurrence lookup. -/
def Ledger.get? (l : Ledger) (d : String) : Option Int :=
  match l with
  | [] => none
  | (k, v) :: rest => if k = d then some v else Ledger.get? rest d

/-- `last_device_post[d] = v`: replace the value in place if the key exists,
append the pair otherwise (Python 3.7 dict assignment). -/
def Ledger.set (l : Ledger) (d : String) (v : Int) : Ledger :=
  match l with
  | [] => [(d, v)]
  | (k, w) :: rest => if k = d then (k, v) :: rest else (k, w) :: Ledger.set rest d v

/-- `for build_target in targets: last_device_post[build_target] = v` — the
seeding loop of `Observer.__init__` and the loop of `Observer.set_start_date`. -/
def Ledger.setAll (l : Ledger) (targets : List String) (v : Int) : Ledger :=
  match targets with
  | [] => l
  | d :: rest => Ledger.setAll (Ledger.set l d v) rest v

/-- `{device.model for oem in oems for device in oem.devices}` — the set of
build targets derived from an OEM roster (`Observer._get_build_targets` and
the inline comprehension in `Observer.observe`).  The Python set is modelled
as a deduplicated list. -/
def get_build_targets (oems : List Oem) : List String :=
  ((oems.flatMap fun oem => oem.devices).map fun device => device.model).dedup

/-- The accumulator step of the selection loop in `Observer.observe`:
`if not last_update or update.datetime > last_update.datetime: last_update = update`. -/
def selStep (last_update : Option Build) (update : Build) : Option Build :=
  match last_update with
  | none => some update
  | some lu => if update.datetime > lu.datetime then some update else some lu

/-- The whole selection loop: starting from `last_update = None`, fold
`selStep` over the response.  Picks the first build of maximal `datetime`. -/
def selectLastUpdate (response : List Build) : Option Build :=
  response.foldl selStep none

/-- One recorded invocation of `Poster.post`: the device, the build passed,
and whether the call returned (`true`) or raised (`false`); the observer
catches and logs a raise, so `ok` never influences the resulting state. -/
structure PostCall where
  device : String
  build : Build
  ok : Bool
deriving DecidableEq, Repr

/-- The body of `for device in build_targets` in `Observer.observe`, for one
device: fetch builds (`none` = raised, replaced by `[]`), skip when empty,
select the newest build, skip when not newer than the ledger entry, otherwise
write the ledger and invoke the poster (whose outcome is caught and logged).
Returns the updated ledger and the poster invocations made (zero or one). -/
def processDevice (g : String → Option (List Build)) (p : String → Build → Bool)
    (ledger : Ledger) (device : String) : Ledger × List PostCall :=
  let response := (g device).getD []
  if response.isEmpty then
    (ledger, [])
  else
    match selectLastUpdate response with
    | none => (ledger, [])
    | some last_update =>
      let build_date := last_update.datetime
      if (match Ledger.get? ledger device with
          | some t => decide (build_date ≤ t)
          | none => false) then
        (ledger, [])
      else
        let ledger1 := Ledger.set ledger device build_date
        let ok := p device last_update
        (ledger1, [⟨device, last_update, ok⟩])

/-- What the per-device loop body decides for one device, as a function of
the ledger entry it currently sees: `none` = skip, `some b` = announce `b`.
A proof device: `processDevice_eq` shows `processDevice` acts on its own
key exactly according to this decision. -/
def deviceDecision (g : String → Option (List Build)) (device : String)
    (entry : Option Int) : Option Build :=
  let response := (g device).getD []
  if response.isEmpty then
    none
  else
    match selectLastUpdate response with
    | none => none
    | some last_update =>
      if (match entry with
          | some t => decide (last_update.datetime ≤ t)
          | none => false) then
        none
      else
        some last_update

/-- The whole `for device in build_targets` loop, threading the ledger and
collecting poster invocations in order. -/
def runDevices (g : String → Option (List Build)) (p : String → Build → Bool)
    (ledger : Ledger) (targets : List String) : Ledger × List PostCall :=
  match targets with
  | [] => (ledger, [])
  | device :: rest =>
    let r1 := processDevice g p ledger device
    let r2 := runDevices g p r1.1 rest
    (r2.1, r1.2 ++ r2.2)

/-- The observable outcome of one iteration of the `while True` body of
`Observer.observe` (after the gate wait): the resulting ledger, the poster
invocations, and whether the `await sleep(10 * 60)` at the bottom of the loop
body was reached (`continue` on a roster-fetch failure skips it). -/
structure CycleResult where
  last_device_post : Ledger
  posts : List PostCall
  slept : Bool
deriving DecidableEq, Repr

/-- One iteration of `Observer.observe`: fetch the OEM roster (`none` =
`get_oems` raised, which is logged and `continue`s, skipping the sleep),
derive the build targets, process each device, then sleep. -/
def observeCycle (getOems : Option (List Oem)) (g : String → Option (List Build))
    (p : String → Build → Bool) (ledger : Ledger) : CycleResult :=
  match getOems with
  | none => ⟨ledger, [], false⟩
  | some oems =>
    let r := runDevices g p ledger (get_build_targets oems)
    ⟨r.1, r.2, true⟩

/-- The observer state visible to the control surface: the gate
(`asyncio.Event`, `true` = set) and the post ledger. -/
structure ObserverState where
  eventSet : Bool
  last_device_post : Ledger
deriving DecidableEq, Repr

/-- `Observer.__init__`: a fresh `Event()` (unset) and a ledger seeding every
build target of the construction-time roster with the construction time. -/
def ObserverState.init (oems : List Oem) (now : Int) : ObserverState :=
  ⟨false, Ledger.setAll [] (get_build_targets oems) now⟩

/-- `observer.event.set()` (the `enable` sub-command). -/
def ObserverState.enable (st : ObserverState) : ObserverState :=
  ⟨true, st.last_device_post⟩

/-- `observer.event.clear()` (the `disable` sub-command). -/
def ObserverState.disable (st : ObserverState) : ObserverState :=
  ⟨false, st.last_device_post⟩

/-- `Observer.set_start_date(date)`: re-enumerate the build targets from the
Build Source (the `oems` argument is the roster returned by
`SyncV2Api.get_oems()` at call time) and set every target's ledger entry to
`date`. -/
def set_start_date (oems : List Oem) (ledger : Ledger) (date : Int) : Ledger :=
  Ledger.setAll ledger (get_build_targets oems) date

/-- The observable content of the `dump` sub-command's reply: the gate state
(always present in the caption) and, only when the gate is set, the device
table sent as a document (one row per ledger entry, in ledger order). -/
structure DumpResult where
  enabled : Bool
  deviceTable : Option (List (String × Int))
deriving DecidableEq, Repr

/-- `LineageOSUpdatesBot.dump`: the caption always carries
`Enabled: {alive}`; the per-device rows are built only under `if alive:`,
and the document (whose text is then nonempty, starting with the header row)
is sent exactly in that case. -/
def dump (st : ObserverState) : DumpResult :=
  let alive := st.eventSet
  if alive then ⟨alive, some st.last_device_post⟩ else ⟨alive, none⟩

/-- The keys of `LineageOSUpdatesBot.lineageos_updates_commands`, in
insertion order. -/
def lineageos_updates_commands : List String :=
  ["disable", "enable", "dump", "set_start_date", "test_post"]

/-- `lineageos_updates_help_text`:
`"\n".join(["Available commands:", *commands])`. -/
def lineageos_updates_help_text : String :=
  String.intercalate "\n" ("Available commands:" :: lineageos_updates_commands)

/-- The outcome of the `lineageos_updates` dispatcher: a direct reply, or
dispatch to the named sub-command handler. -/
inductive UpdatesOutcome where
  | reply (msg : String)
  | dispatched (cmd : String)
deriving DecidableEq, Repr

/-- `LineageOSUpdatesBot.lineageos_updates`: reject non-admin callers with a
fixed message, reject a missing argument and an unknown sub-command with the
help text appended, otherwise dispatch. -/
def lineageos_updates (isAdmin : Bool) (args : List String) : UpdatesOutcome :=
  if !isAdmin then
    .reply "Error: You are not authorized to use this command"
  else
    match args with
    | [] => .reply ("Error: No argument provided\n\n" ++ lineageos_updates_help_text)
    | command :: _ =>
      if lineageos_updates_commands.contains command then
        .dispatched command
      else
        .reply ("Error: Unknown command " ++ command ++ "\n\n" ++ lineageos_updates_help_text)

/-- Substring test on character lists (used to state what a reply message
does or does not enumerate). -/
def containsSub (hay pat : List Char) : Bool :=
  match hay with
  | [] => pat.isEmpty
  | _ :: rest => pat.isPrefixOf hay || containsSub rest pat

/-! ## Concrete instances (used to evaluate the model at specific inputs) -/

/-- A roster with one OEM carrying two device models. -/
def oemsEx : List Oem := [⟨[⟨"bacon"⟩, ⟨"cheeseburger"⟩]⟩]

/-- A build with timestamp 101. -/
def buildNew : Build := ⟨101, 0⟩

/-- A build with timestamp 99. -/
def buildOld : Build := ⟨99, 1⟩

/-- A build with timestamp 100. -/
def buildCur : Build := ⟨100, 2⟩

/-- Build source: `bacon` has builds `[99, 101]`; every other device's
`get_device_builds` raises. -/
def gEx : String → Option (List Build) :=
  fun d => if d = "bacon" then some [buildOld, buildNew] else none

/-- Build source: fetching `bacon` raises; `cheeseburger` has one build
with timestamp 101. -/
def gIso : String → Option (List Build) :=
  fun d => if d = "cheeseburger" then some [buildNew] else none

/-- Build source: `bacon` has builds `[100, 99]` (maximum 100); every other
device raises. -/
def gStale : String → Option (List Build) :=
  fun d => if d = "bacon" then some [buildCur, buildOld] else none

/-- A poster whose delivery always succeeds. -/
def pOk : String → Build → Bool := fun _ _ => true

/-- A poster whose delivery always raises. -/
def pFail : String → Build → Bool := fun _ _ => false

/-- A ledger holding both example devices at timestamp 100. -/
def ledgerEx : Ledger := [("bacon", 100), ("cheeseburger", 100)]

/-- A ledger with no entry for `bacon`. -/
def ledgerNoBacon : Ledger := [("cheeseburger", 100)]

/-- A ledger whose only key is a device absent from `oemsEx`. -/
def ledgerFoo : Ledger := [("foo", 42)]

/-! ## Ledger lemmas -/

theorem get?_set_self (l : Ledger) (d : String) (v : Int) :
    Ledger.get? (Ledger.set l d v) d = some v := by
  induction l with
  | nil => simp [Ledger.set, Ledger.get?]
  | cons kv rest ih =>
    obtain ⟨k, w⟩ := kv
    by_cases hk : k = d <;> simp [Ledger.set, Ledger.get?, hk, ih]

theorem get?_set_ne (l : Ledger) (d d' : String) (v : Int) (h : d ≠ d') :
    Ledger.get? (Ledger.set l d' v) d = Ledger.get? l d := by
  induction l with
  | nil =>
    have hne : ¬(d' = d) := fun he => h he.symm
    simp [Ledger.set, Ledger.get?, hne]
  | cons kv rest ih =>
    obtain ⟨k, w⟩ := kv
    rw [Ledger.set]
    by_cases hk : k = d'
    · rw [if_pos hk]
      have h1 : ¬(k = d) := by
        rw [hk]
        exact fun he => h he.symm
      rw [Ledger.get?, Ledger.get?, if_neg h1, if_neg h1]
    · rw [if_neg hk, Ledger.get?, Ledger.get?]
      by_cases hkd : k = d
      · rw [if_pos hkd, if_pos hkd]
      · rw [if_neg hkd, if_neg hkd, ih]

theorem get?_setAll_not_mem (targets : List String) :
    ∀ (l : Ledger) (v : Int) (d : String), d ∉ targets →
      Ledger.get? (Ledger.setAll l targets v) d = Ledger.get? l d := by
  induction targets with
  | nil => intro l v d _; rfl
  | cons t rest ih =>
    intro l v d hd
    rw [List.mem_cons] at hd
    push_neg at hd
    rw [Ledger.setAll, ih _ _ _ hd.2, get?_set_ne _ _ _ _ hd.1]

theorem get?_setAll_mem (targets : List String) :
    ∀ (l : Ledger) (v : Int) (d : String), d ∈ targets →
      Ledger.get? (Ledger.setAll l targets v) d = some v := by
  induction targets with
  | nil => intro l v d hd; cases hd
  | cons t rest ih =>
    intro l v d hd
    by_cases hmem : d ∈ rest
    · rw [Ledger.setAll, ih _ _ _ hmem]
    · have hdt : d = t := by
        rcases List.mem_cons.mp hd with h | h
        · exact h
        · exact absurd h hmem
      subst hdt
      rw [Ledger.setAll, get?_setAll_not_mem _ _ _ _ hmem, get?_set_self]

theorem set_of_get?_none (l : Ledger) (d : String) (v : Int)
    (h : Ledger.get? l d = none) : Ledger.set l d v = l ++ [(d, v)] := by
  induction l with
  | nil => rfl
  | cons kv rest ih =>
    obtain ⟨k, w⟩ := kv
    by_cases hk : k = d
    · simp [Ledger.get?, hk] at h
    · rw [Ledger.get?, if_neg hk] at h
      simp [Ledger.set, hk, ih h]

theorem get?_append_of_none (l l' : Ledger) (d : String)
    (h : Ledger.get? l d = none) :
    Ledger.get? (l ++ l') d = Ledger.get? l' d := by
  induction l with
  | nil => rfl
  | cons kv rest ih =>
    obtain ⟨k, w⟩ := kv
    by_cases hk : k = d
    · simp [Ledger.get?, hk] at h
    · rw [Ledger.get?, if_neg hk] at h
      rw [List.cons_append, Ledger.get?, if_neg hk, ih h]

theorem setAll_eq_append_map (targets : List String) :
    ∀ (l : Ledger) (v : Int), targets.Nodup →
      (∀ d ∈ targets, Ledger.get? l d = none) →
      Ledger.setAll l targets v = l ++ targets.map (fun d => (d, v)) := by
  induction targets with
  | nil => intro l v _ _; simp [Ledger.setAll]
  | cons t rest ih =>
    intro l v hnd habs
    obtain ⟨htr, hndr⟩ := List.nodup_cons.mp hnd
    rw [Ledger.setAll, set_of_get?_none _ _ _ (habs t (List.mem_cons_self t rest))]
    rw [ih _ _ hndr ?_]
    · simp
    · intro d hd
      rw [get?_append_of_none _ _ _ (habs d (List.mem_cons_of_mem _ hd))]
      have hdt : ¬(t = d) := by
        intro he
        subst he
        exact htr hd
      simp [Ledger.get?, hdt]

/-! ## Selection-loop lemmas -/

theorem selStep_isSome (acc : Option Build) (u : Build) : (selStep acc u).isSome := by
  cases acc with
  | none => rfl
  | some lu =>
    rw [selStep]
    split <;> rfl

theorem foldl_selStep_isSome (l : List Build) :
    ∀ acc : Option Build, acc.isSome → (l.foldl selStep acc).isSome := by
  induction l with
  | nil => intro acc h; exact h
  | cons u rest ih =>
    intro acc _
    rw [List.foldl_cons]
    exact ih _ (selStep_isSome acc u)

theorem selectLastUpdate_isSome (l : List Build) (h : l ≠ []) :
    (selectLastUpdate l).isSome := by
  cases l with
  | nil => exact absurd rfl h
  | cons u rest =>
    rw [selectLastUpdate, List.foldl_cons]
    exact foldl_selStep_isSome rest _ (selStep_isSome none u)

theorem foldl_selStep_mem (l : List Build) :
    ∀ (acc : Option Build) (b : Build), l.foldl selStep acc = some b →
      b ∈ l ∨ acc = some b := by
  induction l with
  | nil => intro acc b h; exact Or.inr h
  | cons u rest ih =>
    intro acc b h
    rw [List.foldl_cons] at h
    rcases ih _ b h with hmem | hstep
    · exact Or.inl (List.mem_cons_of_mem _ hmem)
    · cases acc with
      | none =>
        rw [selStep] at hstep
        exact Or.inl (List.mem_cons.mpr (Or.inl (Option.some.inj hstep).symm))
      | some lu =>
        rw [selStep] at hstep
        split at hstep
        · exact Or.inl (List.mem_cons.mpr (Or.inl (Option.some.inj hstep).symm))
        · exact Or.inr hstep

theorem foldl_selStep_le (l : List Build) :
    ∀ (acc : Option Build) (b : Build), l.foldl selStep acc = some b →
      (∀ u ∈ l, u.datetime ≤ b.datetime) ∧
      (∀ a, acc = some a → a.datetime ≤ b.datetime) := by
  induction l with
  | nil =>
    intro acc b h
    refine ⟨by simp, ?_⟩
    intro a ha
    rw [ha] at h
    rw [Option.some.inj h]
  | cons u rest ih =>
    intro acc b h
    rw [List.foldl_cons] at h
    obtain ⟨hrest, hacc⟩ := ih _ b h
    have hstep : ∀ a, selStep acc u = some a →
        u.datetime ≤ a.datetime ∧ ∀ a0, acc = some a0 → a0.datetime ≤ a.datetime := by
      intro a ha
      cases acc with
      | none =>
        simp only [selStep] at ha
        have hau : a = u := (Option.some.inj ha).symm
        subst hau
        exact ⟨le_refl _, fun a0 h0 => by cases h0⟩
      | some lu =>
        simp only [selStep] at ha
        by_cases hcmp : u.datetime > lu.datetime
        · rw [if_pos hcmp] at ha
          have hau : a = u := (Option.some.inj ha).symm
          subst hau
          refine ⟨le_refl _, ?_⟩
          intro a0 h0
          have ha0 : a0 = lu := (Option.some.inj h0).symm
          subst ha0
          omega
        · rw [if_neg hcmp] at ha
          have hal : a = lu := (Option.some.inj ha).symm
          subst hal
          refine ⟨by omega, ?_⟩
          intro a0 h0
          exact le_of_eq (congrArg Build.datetime (Option.some.inj h0)).symm
    obtain ⟨a, ha⟩ := Option.isSome_iff_exists.mp (selStep_isSome acc u)
    obtain ⟨hua, haccs⟩ := hstep a ha
    have hab : a.datetime ≤ b.datetime := hacc a ha
    constructor
    · intro w hw
      rcases List.mem_cons.mp hw with hwu | hwr

      · rw [hwu]; omega
      · exact hrest w hwr
    · intro a0 h0
      have := haccs a0 h0
      omega

theorem selectLastUpdate_mem (l : List Build) (b : Build)
    (h : selectLastUpdate l = some b) : b ∈ l := by
  rcases foldl_selStep_mem l none b h with hmem | hnone
  · exact hmem
  · cases hnone

theorem selectLastUpdate_le (l : List Build) (b : Build)
    (h : selectLastUpdate l = some b) : ∀ u ∈ l, u.datetime ≤ b.datetime :=
  (foldl_selStep_le l none b h).1

theorem selectLastUpdate_unique_max (l : List Build) (b : Build) (hb : b ∈ l)
    (hmax : ∀ u ∈ l, u ≠ b → u.datetime < b.datetime) :
    selectLastUpdate l = some b := by
  have hne : l ≠ [] := by
    intro he
    rw [he] at hb
    cases hb
  obtain ⟨b', hb'⟩ := Option.isSome_iff_exists.mp (selectLastUpdate_isSome l hne)
  have hmem : b' ∈ l := selectLastUpdate_mem l b' hb'
  have hle : b.datetime ≤ b'.datetime := selectLastUpdate_le l b' hb' b hb
  rcases eq_or_ne b' b with he | hne'
  · rw [hb', he]
  · have := hmax b' hmem hne'
    omega

/-! ## Per-device decision characterization -/

theorem processDevice_eq (g : String → Option (List Build)) (p : String → Build → Bool)
    (ledger : Ledger) (device : String) :
    processDevice g p ledger device =
      match deviceDecision g device (Ledger.get? ledger device) with
      | none => (ledger, [])
      | some b => (Ledger.set ledger device b.datetime, [⟨device, b, p device b⟩]) := by
  simp only [processDevice, deviceDecision]
  rcases Bool.dichotomy ((g device).getD []).isEmpty with hemp | hemp <;> rw [hemp]
  · cases hsel : selectLastUpdate ((g device).getD []) with
    | none => rfl
    | some last_update =>
      dsimp only
      rcases Bool.dichotomy (match Ledger.get? ledger device with
          | some t => decide (last_update.datetime ≤ t)
          | none => false) with hcond | hcond <;> rw [hcond] <;> rfl
  · rfl

theorem processDevice_get?_ne (g : String → Option (List Build))
    (p : String → Build → Bool) (ledger : Ledger) (device d : String)
    (h : d ≠ device) :
    Ledger.get? (processDevice g p ledger device).1 d = Ledger.get? ledger d := by
  rw [processDevice_eq]
  cases deviceDecision g device (Ledger.get? ledger device) with
  | none => rfl
  | some b => exact get?_set_ne ledger d device b.datetime h

theorem processDevice_posts_device (g : String → Option (List Build))
    (p : String → Build → Bool) (ledger : Ledger) (device : String) :
    ∀ c ∈ (processDevice g p ledger device).2, c.device = device := by
  rw [processDevice_eq]
  cases deviceDecision g device (Ledger.get? ledger device) with
  | none => intro c hc; cases hc
  | some b =>
    intro c hc
    rcases List.mem_singleton.mp hc with rfl
    rfl

/-! ## Device-loop lemmas -/

theorem runDevices_not_mem (g : String → Option (List Build))
    (p : String → Build → Bool) (targets : List String) :
    ∀ (ledger : Ledger) (d : String), d ∉ targets →
      Ledger.get? (runDevices g p ledger targets).1 d = Ledger.get? ledger d ∧
      ∀ c ∈ (runDevices g p ledger targets).2, c.device ≠ d := by
  induction targets with
  | nil =>
    intro ledger d _
    exact ⟨rfl, fun c hc => absurd hc (List.not_mem_nil c)⟩
  | cons device rest ih =>
    intro ledger d hd
    rw [List.mem_cons] at hd
    push_neg at hd
    obtain ⟨hdev, hrest⟩ := hd
    obtain ⟨ih1, ih2⟩ := ih (processDevice g p ledger device).1 d hrest
    constructor
    · rw [runDevices]
      rw [ih1, processDevice_get?_ne g p ledger device d hdev]
    · rw [runDevices]
      intro c hc
      rcases List.mem_append.mp hc with hc1 | hc2
      · rw [processDevice_posts_device g p ledger device c hc1]
        exact fun he => hdev he.symm
      · exact ih2 c hc2

theorem runDevices_mem (g : String → Option (List Build))
    (p : String → Build → Bool) (targets : List String) :
    ∀ (ledger : Ledger) (d : String), d ∈ targets → targets.Nodup →
      (runDevices g p ledger targets).2.filter (fun c => c.device == d) =
        (match deviceDecision g d (Ledger.get? ledger d) with
         | none => []
         | some b => [⟨d, b, p d b⟩]) ∧
      Ledger.get? (runDevices g p ledger targets).1 d =
        (match deviceDecision g d (Ledger.get? ledger d) with
         | none => Ledger.get? ledger d
         | some b => some b.datetime) := by
  induction targets with
  | nil => intro ledger d hd _; cases hd
  | cons device rest ih =>
    intro ledger d hd hnd
    obtain ⟨hdevr, hndr⟩ := List.nodup_cons.mp hnd
    by_cases hdev : d = device
    · subst hdev
      have hdr : d ∉ rest := hdevr
      obtain ⟨hr1, hr2⟩ :=
        runDevices_not_mem g p rest (processDevice g p ledger d).1 d hdr
      have hfilter2 :
          (runDevices g p (processDevice g p ledger d).1 rest).2.filter
            (fun c => c.device == d) = [] := by
        rw [List.filter_eq_nil_iff]
        intro c hc
        simp only [beq_iff_eq]
        exact hr2 c hc
      simp only [runDevices]
      rw [List.filter_append, hfilter2, List.append_nil, hr1, processDevice_eq]
      cases hdec : deviceDecision g d (Ledger.get? ledger d) with
      | none => exact ⟨rfl, rfl⟩
      | some b =>
        constructor
        · simp [List.filter]
        · exact get?_set_self ledger d b.datetime
    · have hdr : d ∈ rest := by
        rcases List.mem_cons.mp hd with h | h
        · exact absurd h hdev
        · exact h
      obtain ⟨ih1, ih2⟩ := ih (processDevice g p ledger device).1 d hdr hndr
      have hframe : Ledger.get? (processDevice g p ledger device).1 d
          = Ledger.get? ledger d :=
        processDevice_get?_ne g p ledger device d hdev
      have hfilter1 : (processDevice g p ledger device).2.filter
          (fun c => c.device == d) = [] := by
        rw [List.filter_eq_nil_iff]
        intro c hc
        simp only [beq_iff_eq]
        rw [processDevice_posts_device g p ledger device c hc]
        exact fun he => hdev he.symm
      rw [hframe] at ih1 ih2
      simp only [runDevices]
      rw [List.filter_append, hfilter1, List.nil_append]
      exact ⟨ih1, ih2⟩

/-! ## Decision computations and the cycle-level lemma -/

theorem deviceDecision_empty (g : String → Option (List Build)) (d : String)
    (entry : Option Int) (h : g d = none ∨ g d = some []) :
    deviceDecision g d entry = none := by
  rcases h with h | h <;> simp [deviceDecision, h]

theorem deviceDecision_skip (g : String → Option (List Build)) (d : String)
    (builds : List Build) (b : Build) (T : Int) (hg : g d = some builds)
    (hsel : selectLastUpdate builds = some b) (hle : b.datetime ≤ T) :
    deviceDecision g d (some T) = none := by
  have hne : builds ≠ [] := by
    intro he
    rw [he] at hsel
    cases hsel
  simp only [deviceDecision, hg, Option.getD_some]
  cases builds with
  | nil => exact absurd rfl hne
  | cons u rest =>
    simp only [List.isEmpty_cons, if_false, Bool.false_eq_true]
    rw [hsel]
    simp [hle]

theorem deviceDecision_announce (g : String → Option (List Build)) (d : String)
    (builds : List Build) (b : Build) (entry : Option Int) (hg : g d = some builds)
    (hsel : selectLastUpdate builds = some b)
    (hnew : ∀ t, entry = some t → t < b.datetime) :
    deviceDecision g d entry = some b := by
  have hne : builds ≠ [] := by
    intro he
    rw [he] at hsel
    cases hsel
  simp only [deviceDecision, hg, Option.getD_some]
  cases builds with
  | nil => exact absurd rfl hne
  | cons u rest =>
    simp only [List.isEmpty_cons, if_false, Bool.false_eq_true]
    rw [hsel]
    cases entry with
    | none => simp
    | some t =>
      have ht : t < b.datetime := hnew t rfl
      simp [ht, not_le.mpr ht]

theorem get_build_targets_nodup (oems : List Oem) :
    (get_build_targets oems).Nodup := by
  rw [get_build_targets]
  exact List.nodup_dedup _

theorem observeCycle_device (oems : List Oem) (g : String → Option (List Build))
    (p : String → Build → Bool) (ledger : Ledger) (d : String)
    (hd : d ∈ get_build_targets oems) :
    (observeCycle (some oems) g p ledger).posts.filter (fun c => c.device == d)
      = (match deviceDecision g d (Ledger.get? ledger d) with
         | none => []
         | some b => [⟨d, b, p d b⟩]) ∧
    Ledger.get? (observeCycle (some oems) g p ledger).last_device_post d
      = (match deviceDecision g d (Ledger.get? ledger d) with
         | none => Ledger.get? ledger d
         | some b => some b.datetime) := by
  simp only [observeCycle]
  exact runDevices_mem g p (get_build_targets oems) ledger d hd
    (get_build_targets_nodup oems)

/-! ## Claim theorems -/

/-- C5: device isolation.  If fetching builds for device `A` raises or
returns an empty result, `A` is skipped (no poster call, ledger entry
untouched) while the same cycle still processes `B`: when `B`'s newest build
is strictly newer than `B`'s ledger entry, it is announced exactly once and
`B`'s ledger entry becomes its timestamp. -/
theorem C5_theorem (oems : List Oem) (g : String → Option (List Build))
    (p : String → Build → Bool) (ledger : Ledger) (A B : String)
    (builds : List Build) (b : Build)
    (hA : A ∈ get_build_targets oems) (hB : B ∈ get_build_targets oems)
    (_hAB : A ≠ B)
    (hgA : g A = none ∨ g A = some [])
    (hgB : g B = some builds)
    (hsel : selectLastUpdate builds = some b)
    (hnew : ∀ t, Ledger.get? ledger B = some t → t < b.datetime) :
    (observeCycle (some oems) g p ledger).posts.filter (fun c => c.device == A) = [] ∧
    Ledger.get? (observeCycle (some oems) g p ledger).last_device_post A
      = Ledger.get? ledger A ∧
    (observeCycle (some oems) g p ledger).posts.filter (fun c => c.device == B)
      = [⟨B, b, p B b⟩] ∧
    Ledger.get? (observeCycle (some oems) g p ledger).last_device_post B
      = some b.datetime := by
  have hdecA : deviceDecision g A (Ledger.get? ledger A) = none :=
    deviceDecision_empty g A _ hgA
  have hdecB : deviceDecision g B (Ledger.get? ledger B) = some b := by
    cases hentry : Ledger.get? ledger B with
    | none => exact deviceDecision_announce g B builds b none hgB hsel (fun t ht => by cases ht)
    | some t =>
      refine deviceDecision_announce g B builds b (some t) hgB hsel ?_
      intro t' ht'
      have htt : t = t' := Option.some.inj ht'
      subst htt
      exact hnew t hentry
  obtain ⟨hA1, hA2⟩ := observeCycle_device oems g p ledger A hA
  obtain ⟨hB1, hB2⟩ := observeCycle_device oems g p ledger B hB
  rw [hdecA] at hA1 hA2
  rw [hdecB] at hB1 hB2
  dsimp only at hA1 hA2 hB1 hB2
  exact ⟨hA1, hA2, hB1, hB2⟩

/-- C6: no duplicate announcement.  For a device with ledger entry `T` whose
non-empty build list has maximum timestamp at most `T`, a cycle invokes the
poster zero times for that device and leaves its ledger entry equal to `T`. -/
theorem C6_theorem (oems : List Oem) (g : String → Option (List Build))
    (p : String → Build → Bool) (ledger : Ledger) (d : String)
    (builds : List Build) (T : Int)
    (hd : d ∈ get_build_targets oems) (hg : g d = some builds)
    (hne : builds ≠ []) (hmax : ∀ u ∈ builds, u.datetime ≤ T)
    (hT : Ledger.get? ledger d = some T) :
    (observeCycle (some oems) g p ledger).posts.filter (fun c => c.device == d) = [] ∧
    Ledger.get? (observeCycle (some oems) g p ledger).last_device_post d = some T := by
  obtain ⟨b, hb⟩ := Option.isSome_iff_exists.mp (selectLastUpdate_isSome builds hne)
  have hbT : b.datetime ≤ T := hmax b (selectLastUpdate_mem builds b hb)
  have hdec : deviceDecision g d (Ledger.get? ledger d) = none := by
    rw [hT]
    exact deviceDecision_skip g d builds b T hg hb hbT
  obtain ⟨h1, h2⟩ := observeCycle_device oems g p ledger d hd
  rw [hdec] at h1 h2
  dsimp only at h1 h2
  exact ⟨h1, by rw [h2, hT]⟩

/-- C7: new-build announcement.  For a device with ledger entry `T` whose
build list contains a build `b` with timestamp `T + 1` as its unique maximum,
a cycle selects `b`, invokes the poster exactly once for that device —
with exactly that build — and afterwards the ledger entry equals `T + 1`. -/
theorem C7_theorem (oems : List Oem) (g : String → Option (List Build))
    (p : String → Build → Bool) (ledger : Ledger) (d : String)
    (builds : List Build) (b : Build) (T : Int)
    (hd : d ∈ get_build_targets oems) (hg : g d = some builds)
    (hb : b ∈ builds) (hbT : b.datetime = T + 1)
    (hmax : ∀ u ∈ builds, u ≠ b → u.datetime < b.datetime)
    (hT : Ledger.get? ledger d = some T) :
    selectLastUpdate builds = some b ∧
    (observeCycle (some oems) g p ledger).posts.filter (fun c => c.device == d)
      = [⟨d, b, p d b⟩] ∧
    Ledger.get? (observeCycle (some oems) g p ledger).last_device_post d
      = some (T + 1) := by
  have hsel : selectLastUpdate builds = some b :=
    selectLastUpdate_unique_max builds b hb hmax
  have hdec : deviceDecision g d (Ledger.get? ledger d) = some b := by
    rw [hT]
    refine deviceDecision_announce g d builds b (some T) hg hsel ?_
    intro t ht
    have htT : T = t := Option.some.inj ht
    omega
  obtain ⟨h1, h2⟩ := observeCycle_device oems g p ledger d hd
  rw [hdec] at h1 h2
  dsimp only at h1 h2
  exact ⟨hsel, h1, by rw [h2, hbT]⟩

/-- C8: a device absent from the ledger behaves as if its timestamp were
negative infinity: any non-empty build list leads to its selected maximum
build being announced, and the ledger entry becoming that build's
timestamp. -/
theorem C8_theorem (oems : List Oem) (g : String → Option (List Build))
    (p : String → Build → Bool) (ledger : Ledger) (d : String)
    (builds : List Build)
    (hd : d ∈ get_build_targets oems) (hg : g d = some builds)
    (hne : builds ≠ []) (habs : Ledger.get? ledger d = none) :
    ∃ b, selectLastUpdate builds = some b ∧
      (observeCycle (some oems) g p ledger).posts.filter (fun c => c.device == d)
        = [⟨d, b, p d b⟩] ∧
      Ledger.get? (observeCycle (some oems) g p ledger).last_device_post d
        = some b.datetime := by
  obtain ⟨b, hb⟩ := Option.isSome_iff_exists.mp (selectLastUpdate_isSome builds hne)
  have hdec : deviceDecision g d (Ledger.get? ledger d) = some b := by
    rw [habs]
    exact deviceDecision_announce g d builds b none hg hb (fun t ht => by cases ht)
  obtain ⟨h1, h2⟩ := observeCycle_device oems g p ledger d hd
  rw [hdec] at h1 h2
  dsimp only at h1 h2
  exact ⟨b, hb, h1, h2⟩

/-- C9: reset semantics.  `set_start_date` re-enumerates the roster at call
time and sets every enumerated device's ledger entry to `T0`; a subsequent
cycle then announces any build strictly newer than `T0` for such a device
(regardless of what the entry was before, i.e. including builds already
announced). -/
theorem C9_theorem (oemsAtCall oemsCycle : List Oem)
    (g : String → Option (List Build)) (p : String → Build → Bool)
    (ledger : Ledger) (T0 : Int) (d : String) (builds : List Build) (b : Build)
    (hd1 : d ∈ get_build_targets oemsAtCall)
    (hd2 : d ∈ get_build_targets oemsCycle)
    (hg : g d = some builds) (hsel : selectLastUpdate builds = some b)
    (hnew : T0 < b.datetime) :
    Ledger.get? (set_start_date oemsAtCall ledger T0) d = some T0 ∧
    (observeCycle (some oemsCycle) g p (set_start_date oemsAtCall ledger T0)).posts.filter
      (fun c => c.device == d) = [⟨d, b, p d b⟩] ∧
    Ledger.get? (observeCycle (some oemsCycle) g p
        (set_start_date oemsAtCall ledger T0)).last_device_post d
      = some b.datetime := by
  have hT0 : Ledger.get? (set_start_date oemsAtCall ledger T0) d = some T0 := by
    rw [set_start_date]
    exact get?_setAll_mem (get_build_targets oemsAtCall) ledger T0 d hd1
  have hdec : deviceDecision g d
      (Ledger.get? (set_start_date oemsAtCall ledger T0) d) = some b := by
    rw [hT0]
    refine deviceDecision_announce g d builds b (some T0) hg hsel ?_
    intro t ht
    have htT : T0 = t := Option.some.inj ht
    omega
  obtain ⟨h1, h2⟩ :=
    observeCycle_device oemsCycle g p (set_start_date oemsAtCall ledger T0) d hd2
  rw [hdec] at h1 h2
  dsimp only at h1 h2
  exact ⟨hT0, h1, h2⟩

/-- C10: frame property of `set_start_date`.  A ledger key that is not in
the roster enumerated at call time keeps its previous timestamp. -/
theorem C10_theorem (oems : List Oem) (ledger : Ledger) (date : Int) (d : String)
    (h : d ∉ get_build_targets oems) :
    Ledger.get? (set_start_date oems ledger date) d = Ledger.get? ledger d := by
  rw [set_start_date]
  exact get?_setAll_not_mem (get_build_targets oems) ledger date d h

/-- C1 (counterexample): with a poster that raises for a build with
timestamp 101 while the ledger holds 100, after the cycle the ledger entry is
101, not 100 — the ledger is advanced before delivery is confirmed,
contradicting the claim. -/
theorem C1_counterexample :
    (observeCycle (some oemsEx) gEx pFail ledgerEx).posts
      = [⟨"bacon", buildNew, false⟩] ∧
    Ledger.get? (observeCycle (some oemsEx) gEx pFail ledgerEx).last_device_post "bacon"
      = some 101 ∧
    ¬ Ledger.get? (observeCycle (some oemsEx) gEx pFail ledgerEx).last_device_post "bacon"
      = Ledger.get? ledgerEx "bacon" := by decide

/-- C1 (amended): the ledger entry is updated to the newly selected build's
timestamp BEFORE the poster is invoked, so the update happens regardless of
the delivery outcome: for every poster `p` — including one that raises —
after the cycle the entry equals the new timestamp, the poster was invoked
exactly once for the device, and the same build is NOT reconsidered on the
next cycle (no poster call for the device there). -/
theorem C1_amended (oems : List Oem) (g : String → Option (List Build))
    (p : String → Build → Bool) (ledger : Ledger) (d : String)
    (builds : List Build) (b : Build) (T : Int)
    (hd : d ∈ get_build_targets oems) (hg : g d = some builds)
    (hsel : selectLastUpdate builds = some b)
    (hT : Ledger.get? ledger d = some T) (hnew : T < b.datetime) :
    Ledger.get? (observeCycle (some oems) g p ledger).last_device_post d
      = some b.datetime ∧
    (observeCycle (some oems) g p ledger).posts.filter (fun c => c.device == d)
      = [⟨d, b, p d b⟩] ∧
    (observeCycle (some oems) g p
        (observeCycle (some oems) g p ledger).last_device_post).posts.filter
      (fun c => c.device == d) = [] := by
  have hdec : deviceDecision g d (Ledger.get? ledger d) = some b := by
    rw [hT]
    refine deviceDecision_announce g d builds b (some T) hg hsel ?_
    intro t ht
    have htT : T = t := Option.some.inj ht
    omega
  obtain ⟨h1, h2⟩ := observeCycle_device oems g p ledger d hd
  rw [hdec] at h1 h2
  dsimp only at h1 h2
  refine ⟨h2, h1, ?_⟩
  have hdec2 : deviceDecision g d
      (Ledger.get? (observeCycle (some oems) g p ledger).last_device_post d)
      = none := by
    rw [h2]
    exact deviceDecision_skip g d builds b b.datetime hg hsel (le_refl _)
  obtain ⟨h3, _⟩ := observeCycle_device oems g p
    (observeCycle (some oems) g p ledger).last_device_post d hd
  rw [hdec2] at h3
  exact h3

/-- C1 (witness): the amended theorem applied with the always-raising poster
at concrete inputs. -/
theorem C1_witness :
    Ledger.get? ledgerEx "bacon" = some 100 ∧
    (Ledger.get? (observeCycle (some oemsEx) gEx pFail ledgerEx).last_device_post "bacon"
        = some buildNew.datetime ∧
      (observeCycle (some oemsEx) gEx pFail ledgerEx).posts.filter
        (fun c => c.device == "bacon") = [⟨"bacon", buildNew, pFail "bacon" buildNew⟩] ∧
      (observeCycle (some oemsEx) gEx pFail
          (observeCycle (some oemsEx) gEx pFail ledgerEx).last_device_post).posts.filter
        (fun c => c.device == "bacon") = []) :=
  ⟨by decide, C1_amended oemsEx gEx pFail ledgerEx "bacon" [buildOld, buildNew]
    buildNew 100 (by decide) (by decide) (by decide) (by decide) (by decide)⟩

/-- C2 (counterexample): when the roster fetch raises, the cycle does NOT
reach the ten-minute sleep — `continue` returns straight to the gate wait —
contradicting the claim that the inter-cycle sleep is still performed. -/
theorem C2_counterexample :
    ¬ (observeCycle none gEx pOk ledgerEx).slept = true := by decide

/-- C2 (amended): when the roster fetch raises, the Observer logs the error
and skips the entire cycle with `continue`, returning to the top of the loop
WITHOUT performing the ten-minute sleep; no ledger entry changes and no
poster call occurs in that cycle. -/
theorem C2_amended (g : String → Option (List Build)) (p : String → Build → Bool)
    (ledger : Ledger) :
    observeCycle none g p ledger = ⟨ledger, [], false⟩ := rfl

/-- C3 (counterexample): a freshly constructed observer with two known
devices has its gate disabled (`Event()` starts clear), and `dump` then
reports no per-device table at all — contradicting the claim that it reports
every tracked device's timestamp regardless of the gate state. -/
theorem C3_counterexample :
    (ObserverState.init oemsEx 100).last_device_post
      = [("bacon", 100), ("cheeseburger", 100)] ∧
    dump (ObserverState.init oemsEx 100) = ⟨false, none⟩ := by decide

/-- C3 (amended): `dump` always reports the gate state, but reports the
per-device table ONLY while the gate is enabled.  A freshly constructed
observer has the gate disabled, so its dump carries no device table; once the
gate is enabled, dump reports every device of the construction-time roster
with timestamp equal to the construction time. -/
theorem C3_amended (oems : List Oem) (now : Int) :
    dump (ObserverState.init oems now) = ⟨false, none⟩ ∧
    dump ((ObserverState.init oems now).enable)
      = ⟨true, some ((get_build_targets oems).map fun d => (d, now))⟩ := by
  constructor
  · rfl
  · have h : Ledger.setAll [] (get_build_targets oems) now
        = (get_build_targets oems).map (fun d => (d, now)) := by
      have happ := setAll_eq_append_map (get_build_targets oems) [] now
        (get_build_targets_nodup oems) (fun d _ => rfl)
      rw [List.nil_append] at happ
      exact happ
    show dump ⟨true, Ledger.setAll [] (get_build_targets oems) now⟩ = _
    rw [h]
    rfl

/-- C4 (counterexample): an unauthorized caller receives the fixed rejection
`Error: You are not authorized to use this command`, which enumerates none of
the five sub-command names — contradicting the claim that both rejection
paths enumerate them. -/
theorem C4_counterexample :
    lineageos_updates false ["dump"]
      = .reply "Error: You are not authorized to use this command" ∧
    lineageos_updates_commands.all (fun c =>
      !(containsSub "Error: You are not authorized to use this command".data c.data))
      = true := by decide

/-- C4 (amended): an unrecognized sub-command (from an authorized caller)
produces a rejection carrying the help text, which enumerates all five valid
sub-command names (disable, enable, dump, set_start_date, test_post); an
unauthorized caller instead receives a plain rejection without the
enumeration. -/
theorem C4_amended (cmd : String)
    (h : lineageos_updates_commands.contains cmd = false) :
    lineageos_updates true [cmd]
      = .reply ("Error: Unknown command " ++ cmd ++ "\n\n"
          ++ lineageos_updates_help_text) ∧
    lineageos_updates false [cmd]
      = .reply "Error: You are not authorized to use this command" ∧
    lineageos_updates_commands.all
      (fun c => containsSub lineageos_updates_help_text.data c.data) = true := by
  refine ⟨?_, rfl, by decide⟩
  simp only [lineageos_updates, Bool.not_true, Bool.false_eq_true, if_false, h]

/-- C4 (witness): the amended theorem applied to the unknown sub-command
`bogus`. -/
theorem C4_witness :
    lineageos_updates_commands.contains "bogus" = false ∧
    (lineageos_updates true ["bogus"]
        = .reply ("Error: Unknown command " ++ "bogus" ++ "\n\n"
            ++ lineageos_updates_help_text) ∧
      lineageos_updates false ["bogus"]
        = .reply "Error: You are not authorized to use this command" ∧
      lineageos_updates_commands.all
        (fun c => containsSub lineageos_updates_help_text.data c.data) = true) :=
  ⟨by decide, C4_amended "bogus" (by decide)⟩

/-- C5 (witness): fetching `bacon` raises while `cheeseburger` has a new
build; the cycle announces `cheeseburger` and leaves `bacon` untouched. -/
theorem C5_witness :
    (gIso "bacon" = none ∨ gIso "bacon" = some []) ∧
    ((observeCycle (some oemsEx) gIso pOk ledgerEx).posts.filter
        (fun c => c.device == "bacon") = [] ∧
      Ledger.get? (observeCycle (some oemsEx) gIso pOk ledgerEx).last_device_post "bacon"
        = Ledger.get? ledgerEx "bacon" ∧
      (observeCycle (some oemsEx) gIso pOk ledgerEx).posts.filter
        (fun c => c.device == "cheeseburger")
        = [⟨"cheeseburger", buildNew, pOk "cheeseburger" buildNew⟩] ∧
      Ledger.get? (observeCycle (some oemsEx) gIso pOk ledgerEx).last_device_post
        "cheeseburger" = some buildNew.datetime) :=
  ⟨Or.inl (by decide),
    C5_theorem oemsEx gIso pOk ledgerEx "bacon" "cheeseburger" [buildNew] buildNew
      (by decide) (by decide) (by decide) (Or.inl (by decide)) (by decide) (by decide)
      (by
        intro t ht
        have h100 : (100 : Int) = t := Option.some.inj ht
        rw [← h100]
        decide)⟩

/-- C6 (witness): `bacon` holds ledger timestamp 100 and its build list's
maximum is 100, so the cycle posts nothing for it and keeps the entry. -/
theorem C6_witness :
    (∀ u ∈ [buildCur, buildOld], u.datetime ≤ 100) ∧
    ((observeCycle (some oemsEx) gStale pOk ledgerEx).posts.filter
        (fun c => c.device == "bacon") = [] ∧
      Ledger.get? (observeCycle (some oemsEx) gStale pOk ledgerEx).last_device_post
        "bacon" = some 100) :=
  ⟨by decide,
    C6_theorem oemsEx gStale pOk ledgerEx "bacon" [buildCur, buildOld] 100
      (by decide) (by decide) (by decide) (by decide) (by decide)⟩

/-- C7 (witness): `bacon` holds ledger timestamp 100 and its build list
contains a unique maximum with timestamp 101; the cycle posts it exactly once
and sets the entry to 101. -/
theorem C7_witness :
    buildNew.datetime = 100 + 1 ∧
    (selectLastUpdate [buildOld, buildNew] = some buildNew ∧
      (observeCycle (some oemsEx) gEx pOk ledgerEx).posts.filter
        (fun c => c.device == "bacon") = [⟨"bacon", buildNew, pOk "bacon" buildNew⟩] ∧
      Ledger.get? (observeCycle (some oemsEx) gEx pOk ledgerEx).last_device_post
        "bacon" = some (100 + 1)) :=
  ⟨by decide,
    C7_theorem oemsEx gEx pOk ledgerEx "bacon" [buildOld, buildNew] buildNew 100
      (by decide) (by decide) (by decide) (by decide) (by decide) (by decide)⟩

/-- C8 (witness): `bacon` has no ledger entry and a non-empty build list, so
its selected build is announced and becomes the ledger entry. -/
theorem C8_witness :
    Ledger.get? ledgerNoBacon "bacon" = none ∧
    (∃ b, selectLastUpdate [buildOld, buildNew] = some b ∧
      (observeCycle (some oemsEx) gEx pOk ledgerNoBacon).posts.filter
        (fun c => c.device == "bacon") = [⟨"bacon", b, pOk "bacon" b⟩] ∧
      Ledger.get? (observeCycle (some oemsEx) gEx pOk ledgerNoBacon).last_device_post
        "bacon" = some b.datetime) :=
  ⟨by decide,
    C8_theorem oemsEx gEx pOk ledgerNoBacon "bacon" [buildOld, buildNew]
      (by decide) (by decide) (by decide) (by decide)⟩

/-- C9 (witness): resetting the start date to 50 sets `bacon`'s entry to 50,
and the next cycle announces `bacon`'s build with timestamp 101 even though
the entry had been 100 before the reset. -/
theorem C9_witness :
    ("bacon" ∈ get_build_targets oemsEx) ∧
    (Ledger.get? (set_start_date oemsEx ledgerEx 50) "bacon" = some 50 ∧
      (observeCycle (some oemsEx) gEx pOk (set_start_date oemsEx ledgerEx 50)).posts.filter
        (fun c => c.device == "bacon") = [⟨"bacon", buildNew, pOk "bacon" buildNew⟩] ∧
      Ledger.get? (observeCycle (some oemsEx) gEx pOk
          (set_start_date oemsEx ledgerEx 50)).last_device_post "bacon"
        = some buildNew.datetime) :=
  ⟨by decide,
    C9_theorem oemsEx oemsEx gEx pOk ledgerEx 50 "bacon" [buildOld, buildNew] buildNew
      (by decide) (by decide) (by decide) (by decide) (by decide)⟩

/-- C10 (witness): `foo` is not in the roster, so `set_start_date` leaves its
entry at 42. -/
theorem C10_witness :
    ("foo" ∉ get_build_targets oemsEx) ∧
    Ledger.get? (set_start_date oemsEx ledgerFoo 50) "foo"
      = Ledger.get? ledgerFoo "foo" :=
  ⟨by decide, C10_theorem oemsEx ledgerFoo 50 "foo" (by decide)⟩

end LineageBot
